import Mathlib

/-!
Shallow embedding of the `luauencrypt` container codec (`src/luaucx.rs`).

Bytes are modelled as `Nat` (a well-formed byte is `< 256`; the operations
below agree with the Rust `u8` semantics on such values).  The caller-supplied
`Write` sinks are modelled by returning the bytes that would be written:
the encoder returns the full container byte list, and the decoder's result
carries the plaintext bytes (written to `out_buf`) and, when an AD sink is
supplied, the AD bytes (written to `ad_buf`).  Out-of-bounds slice indexing,
which panics in Rust, is modelled by an explicit `panic` outcome.
-/

namespace Luaucx

/-- `pub const MAGIC: &[u8; 8] = b"LUAUBYTX";` -/
def MAGIC : List Nat := [76, 85, 65, 85, 66, 89, 84, 88]

/-- `pub const LUAUCX_VERSION: u8 = 1;` -/
def LUAUCX_VERSION : Nat := 1

/-- `pub const AEAD_XCHACHA20: u8 = 1;` -/
def AEAD_XCHACHA20 : Nat := 1

/-- `pub const NONCE_LEN: usize = 24;` -/
def NONCE_LEN : Nat := 24

/-- `pub const TAG_LEN: usize = 16;` -/
def TAG_LEN : Nat := 16

/-- `pub const HEADER_LEN: usize = MAGIC.len() + 2*1 + 2 + 2*4 + NONCE_LEN + TAG_LEN;` -/
def HEADER_LEN : Nat := MAGIC.length + 2 * 1 + 2 + 2 * 4 + NONCE_LEN + TAG_LEN

/-- Little-endian bytes of a `u16` value (`u16::to_le_bytes`). -/
def le16 (x : Nat) : List Nat := [x % 256, x / 256 % 256]

/-- Little-endian bytes of a `u32` value (`u32::to_le_bytes`). -/
def le32 (x : Nat) : List Nat :=
  [x % 256, x / 256 % 256, x / 256 ^ 2 % 256, x / 256 ^ 3 % 256]

/-- Little-endian bytes of a `u64` value (`u64::to_le_bytes`). -/
def le64 (x : Nat) : List Nat :=
  [x % 256, x / 256 % 256, x / 256 ^ 2 % 256, x / 256 ^ 3 % 256,
   x / 256 ^ 4 % 256, x / 256 ^ 5 % 256, x / 256 ^ 6 % 256, x / 256 ^ 7 % 256]

/-- Value of a little-endian byte list (`uN::from_le_bytes`). -/
def fromLe (l : List Nat) : Nat := l.foldr (fun b acc => b + 256 * acc) 0

/-- `fn read_bytes(input, off, len) -> &input[start..start+len]`.
Rust slice indexing panics when the end of the range exceeds the buffer
length; the panic is modelled by `none`.  On success the read bytes and the
advanced cursor are returned. -/
def read_bytes (input : List Nat) (off len : Nat) : Option (List Nat × Nat) :=
  if off + len ≤ input.length then some ((input.drop off).take len, off + len)
  else none

/-- `fn read_u8(input, off) -> input[*off]` (panics out of bounds → `none`). -/
def read_u8 (input : List Nat) (off : Nat) : Option (Nat × Nat) :=
  match input[off]? with
  | some v => some (v, off + 1)
  | none => none

/-- `fn read_u16(input, off)`: two-byte little-endian read (panic → `none`). -/
def read_u16 (input : List Nat) (off : Nat) : Option (Nat × Nat) :=
  if off + 2 ≤ input.length then some (fromLe ((input.drop off).take 2), off + 2)
  else none

/-- `fn read_u32(input, off)`: four-byte little-endian read (panic → `none`). -/
def read_u32 (input : List Nat) (off : Nat) : Option (Nat × Nat) :=
  if off + 4 ≤ input.length then some (fromLe ((input.drop off).take 4), off + 4)
  else none

/-- Modelled from the spec: keystream byte `i` of the AEAD Engine's stream
cipher for a given key and nonce.  The concrete XChaCha20 keystream lives in
the external `chacha20poly1305` crate, not in this repository; any fixed
deterministic keystream satisfies the spec's §4.2 contract. -/
def ksByte (key nonce : List Nat) (i : Nat) : Nat :=
  (key.getD (i % 32) 0 + nonce.getD (i % 24) 0 + i) % 256

/-- Modelled from the spec: XOR-stream en/decryption starting at stream
position `i`.  Applying it twice is the identity, and the output length
equals the input length, as §4.2 requires (`ciphertext length equals
plaintext length`). -/
def xcryptFrom (key nonce : List Nat) (i : Nat) : List Nat → List Nat
  | [] => []
  | b :: t => (b ^^^ ksByte key nonce i) :: xcryptFrom key nonce (i + 1) t

/-- Modelled from the spec: the AEAD Engine's stream en/decryption. -/
def xcrypt (key nonce data : List Nat) : List Nat := xcryptFrom key nonce 0 data

/-- Zero padding bringing a byte list up to a 16-byte boundary
(as the Poly1305 layer of the modelled AEAD construction does). -/
def pad16 (l : List Nat) : List Nat := List.replicate ((16 - l.length % 16) % 16) 0

/-- Modelled from the spec: the byte stream the AEAD Engine's authenticator
absorbs — key, nonce, associated data, ciphertext (each padded to a 16-byte
boundary) and the two data lengths, so that the tag is computed
`over (ciphertext, aad) under (key, nonce)` as §4.2 requires. -/
def macStream (key nonce ct ad : List Nat) : List Nat :=
  key ++ pad16 key ++ nonce ++ pad16 nonce ++ ad ++ pad16 ad ++ ct ++ pad16 ct
    ++ le64 ad.length ++ le64 ct.length

/-- XOR-fold of the bytes of a list whose position (counted from `off`) is
congruent to `j` modulo 16. -/
def tfold (off j : Nat) : List Nat → Nat
  | [] => 0
  | b :: t => if off % 16 = j then b ^^^ tfold (off + 1) j t else tfold (off + 1) j t

/-- Modelled from the spec: the AEAD Engine's 16-byte authentication tag —
byte `j` of the tag XOR-folds the positions of the absorbed stream congruent
to `j` mod 16.  `tag is always 16 bytes` (§4.2). -/
def mac (key nonce ct ad : List Nat) : List Nat :=
  (List.range 16).map fun j => tfold 0 j (macStream key nonce ct ad)

/-- Modelled from the spec: AEAD `seal` (§4.2).  Returns ciphertext followed
by the 16-byte tag, matching the `chacha20poly1305` crate's `encrypt`, whose
result the Rust code splits at `ciphertext.len() - TAG_LEN`. -/
def aeadSeal (key nonce pt ad : List Nat) : List Nat :=
  xcrypt key nonce pt ++ mac key nonce (xcrypt key nonce pt) ad

/-- Modelled from the spec: AEAD `open` (§4.2).  The message is ciphertext
followed by the 16-byte tag (the crate's `decrypt` input); the tag is
verified over `(ciphertext, aad)` under `(key, nonce)` before any plaintext
is produced, and a mismatch yields `none` atomically. -/
def aeadOpen (key nonce msg ad : List Nat) : Option (List Nat) :=
  if msg.length < TAG_LEN then none
  else if mac key nonce (msg.take (msg.length - TAG_LEN)) ad
      = msg.drop (msg.length - TAG_LEN) then
    some (xcrypt key nonce (msg.take (msg.length - TAG_LEN)))
  else none

/-- Error taxonomy of the codec, named after the spec's §7 taxonomy.
`keyError` = "key must be 32 bytes"; `formatError` = "invalid bytecode",
"unsupported version" or "unsupported aead id"; `keyIdMismatch` =
"key ID mismatch"; `authError` = "decryption failed". -/
inductive DecErr where
  | keyError
  | formatError
  | keyIdMismatch
  | authError
deriving DecidableEq, Repr

/-- Outcome of `decrypt_bytecode_into`: a Rust panic, an error (in which case
nothing has been written to the sinks), or success carrying the plaintext
bytes written to `out_buf` and, when an AD sink was supplied, the AD bytes
written to `ad_buf`. -/
inductive DecOut where
  | panic
  | err : DecErr → DecOut
  | ok : List Nat → Option (List Nat) → DecOut
deriving DecidableEq, Repr

/-- `pub fn encrypt_bytecode_into(bytecode, nonce, key, key_id, ad, out_buf)`.
The nonce is taken as an explicit 24-byte argument (the Rust `Option` default
draws it from the process CSPRNG).  `key_id` is a `u16`, hence the `% 2 ^ 16`
in its little-endian serialization; `ad.len() as u32` and `ct.len() as u32`
are the truncating Rust casts.  Returns the container bytes written to
`out_buf` and the returned byte count `HEADER_LEN + ct.len() + ad.len()`. -/
def encrypt_bytecode_into (bytecode nonce key : List Nat) (key_id : Nat)
    (ad : List Nat) : Except DecErr (List Nat × Nat) :=
  if key.length = 32 then
    let ciphertext := aeadSeal key nonce bytecode ad
    let ct_len := ciphertext.length - TAG_LEN
    let ct := ciphertext.take ct_len
    let tag := ciphertext.drop ct_len
    .ok (MAGIC ++ [LUAUCX_VERSION, AEAD_XCHACHA20] ++ le16 (key_id % 2 ^ 16)
          ++ le32 (ad.length % 2 ^ 32) ++ le32 (ct.length % 2 ^ 32)
          ++ nonce ++ tag ++ ct ++ ad,
         HEADER_LEN + ct.length + ad.length)
  else .error .keyError

/-- `pub fn decrypt_bytecode_into(blob, key, expected_key_id, out_buf, ad_buf)`.
`want_ad` is whether an `ad_buf` sink was supplied.  The checks appear in the
source's order: key length, magic, version, aead id, expected key id, then
the length-prefixed reads and the AEAD open; each unchecked Rust slice read
that would panic yields `DecOut.panic`. -/
def decrypt_bytecode_into (blob key : List Nat) (expected_key_id : Option Nat)
    (want_ad : Bool) : DecOut :=
  if key.length = 32 then
    match read_bytes blob 0 MAGIC.length with
    | none => .panic
    | some (magic, off1) =>
      if magic = MAGIC then
        match read_u8 blob off1 with
        | none => .panic
        | some (ver, off2) =>
          if ver = LUAUCX_VERSION then
            match read_u8 blob off2 with
            | none => .panic
            | some (aead_id, off3) =>
              if aead_id = AEAD_XCHACHA20 then
                match read_u16 blob off3 with
                | none => .panic
                | some (key_id, off4) =>
                  if match expected_key_id with
                     | some expected => expected == key_id
                     | none => true then
                    match read_u32 blob off4 with
                    | none => .panic
                    | some (ad_len, off5) =>
                      match read_u32 blob off5 with
                      | none => .panic
                      | some (ct_len, off6) =>
                        match read_bytes blob off6 NONCE_LEN with
                        | none => .panic
                        | some (nonce, off7) =>
                          match read_bytes blob off7 TAG_LEN with
                          | none => .panic
                          | some (tag, off8) =>
                            match read_bytes blob off8 ct_len with
                            | none => .panic
                            | some (ct, off9) =>
                              match read_bytes blob off9 ad_len with
                              | none => .panic
                              | some (ad, _off10) =>
                                match aeadOpen key nonce (ct ++ tag) ad with
                                | none => .err .authError
                                | some pt =>
                                  .ok pt (if want_ad then some ad else none)
                  else .err .keyIdMismatch
              else .err .formatError
          else .err .formatError
      else .err .formatError
  else .err .keyError

/-- The Rust return value `(usize, Option<usize>)` of a successful
`decrypt_bytecode_into` call: `(pt.len(), ad_written)`. -/
def dec_ret : DecOut → Option (Nat × Option Nat)
  | .ok pt ad => some (pt.length, ad.map List.length)
  | _ => none

/-! ### Basic properties of the modelled AEAD engine -/

theorem length_xcryptFrom (key nonce : List Nat) (i : Nat) (l : List Nat) :
    (xcryptFrom key nonce i l).length = l.length := by
  induction l generalizing i with
  | nil => rfl
  | cons b t ih => simp [xcryptFrom, ih]

theorem xcryptFrom_xcryptFrom (key nonce : List Nat) (i : Nat) (l : List Nat) :
    xcryptFrom key nonce i (xcryptFrom key nonce i l) = l := by
  induction l generalizing i with
  | nil => rfl
  | cons b t ih => simp [xcryptFrom, ih, Nat.xor_cancel_right]

theorem length_xcrypt (key nonce l : List Nat) :
    (xcrypt key nonce l).length = l.length := length_xcryptFrom key nonce 0 l

theorem xcrypt_xcrypt (key nonce l : List Nat) :
    xcrypt key nonce (xcrypt key nonce l) = l := xcryptFrom_xcryptFrom key nonce 0 l

theorem length_mac (key nonce ct ad : List Nat) : (mac key nonce ct ad).length = 16 := by
  simp [mac]

theorem length_aeadSeal (key nonce pt ad : List Nat) :
    (aeadSeal key nonce pt ad).length = pt.length + 16 := by
  simp [aeadSeal, length_xcrypt, length_mac]

theorem aeadSeal_take (key nonce pt ad : List Nat) :
    (aeadSeal key nonce pt ad).take ((aeadSeal key nonce pt ad).length - TAG_LEN)
      = xcrypt key nonce pt := by
  rw [length_aeadSeal]
  show (xcrypt key nonce pt ++ _).take (pt.length + 16 - 16) = _
  rw [Nat.add_sub_cancel, ← length_xcrypt key nonce pt, List.take_left]

theorem aeadSeal_drop (key nonce pt ad : List Nat) :
    (aeadSeal key nonce pt ad).drop ((aeadSeal key nonce pt ad).length - TAG_LEN)
      = mac key nonce (xcrypt key nonce pt) ad := by
  rw [length_aeadSeal]
  show (xcrypt key nonce pt ++ _).drop (pt.length + 16 - 16) = _
  rw [Nat.add_sub_cancel, ← length_xcrypt key nonce pt, List.drop_left]

theorem aeadOpen_append (key nonce ct tag ad : List Nat) (ht : tag.length = 16) :
    aeadOpen key nonce (ct ++ tag) ad
      = if mac key nonce ct ad = tag then some (xcrypt key nonce ct) else none := by
  unfold aeadOpen
  have hlen : (ct ++ tag).length = ct.length + 16 := by simp [ht]
  have h1 : ¬ (ct ++ tag).length < TAG_LEN := by
    simp [hlen, TAG_LEN]
  have h2 : (ct ++ tag).length - TAG_LEN = ct.length := by
    simp [hlen, TAG_LEN]
  rw [if_neg h1]
  simp only [h2, List.take_left, List.drop_left]

theorem aeadOpen_aeadSeal (key nonce pt ad : List Nat) :
    aeadOpen key nonce (aeadSeal key nonce pt ad) ad = some pt := by
  have h : aeadSeal key nonce pt ad
      = xcrypt key nonce pt ++ mac key nonce (xcrypt key nonce pt) ad := rfl
  rw [h, aeadOpen_append _ _ _ _ _ (length_mac _ _ _ _), if_pos rfl, xcrypt_xcrypt]

/-! ### Little-endian arithmetic -/

theorem length_le16 (x : Nat) : (le16 x).length = 2 := rfl

theorem length_le32 (x : Nat) : (le32 x).length = 4 := rfl

theorem fromLe_le16 (x : Nat) : fromLe (le16 x) = x % 2 ^ 16 := by
  show x % 256 + 256 * (x / 256 % 256 + 256 * 0) = x % 2 ^ 16
  have : (2 : Nat) ^ 16 = 256 * 256 := by norm_num
  omega

theorem fromLe_le32 (x : Nat) : fromLe (le32 x) = x % 2 ^ 32 := by
  show x % 256 + 256 * (x / 256 % 256 + 256 * (x / 256 ^ 2 % 256
      + 256 * (x / 256 ^ 3 % 256 + 256 * 0))) = x % 2 ^ 32
  have h1 : (256 : Nat) ^ 2 = 65536 := by norm_num
  have h2 : (256 : Nat) ^ 3 = 16777216 := by norm_num
  have h3 : (2 : Nat) ^ 32 = 4294967296 := by norm_num
  rw [h1, h2, h3]
  omega

theorem fromLe_pair (i0 i1 : Nat) : fromLe [i0, i1] = i0 + 256 * i1 := by
  show i0 + 256 * (i1 + 256 * 0) = i0 + 256 * i1
  ring

/-! ### Characterizing the decoder on a well-formed container layout -/

theorem decrypt_layout (key nonce tag body : List Nat) (i0 i1 a c : Nat)
    (exp : Option Nat) (want : Bool)
    (hkey : key.length = 32) (hn : nonce.length = 24) (ht : tag.length = 16)
    (ha : a < 2 ^ 32) (hc : c < 2 ^ 32) (hbody : c + a ≤ body.length)
    (hexp : exp = none ∨ exp = some (i0 + 256 * i1)) :
    decrypt_bytecode_into
        (MAGIC ++ ([LUAUCX_VERSION, AEAD_XCHACHA20, i0, i1] ++ (le32 a ++ (le32 c
          ++ (nonce ++ (tag ++ body)))))) key exp want
      = match aeadOpen key nonce (body.take c ++ tag) ((body.drop c).take a) with
        | none => .err .authError
        | some pt => .ok pt (if want then some ((body.drop c).take a) else none) := by
  set B := MAGIC ++ ([LUAUCX_VERSION, AEAD_XCHACHA20, i0, i1] ++ (le32 a ++ (le32 c
      ++ (nonce ++ (tag ++ body))))) with hB
  have hBlen : B.length = 60 + body.length := by
    simp [hB, MAGIC, le32, hn, ht]
    omega
  have e8 : B.drop 8 = [LUAUCX_VERSION, AEAD_XCHACHA20, i0, i1] ++ (le32 a ++ (le32 c
      ++ (nonce ++ (tag ++ body)))) := by
    rw [hB, show (8 : Nat) = MAGIC.length from rfl]
    exact List.drop_left _ _
  have e12 : B.drop 12 = le32 a ++ (le32 c ++ (nonce ++ (tag ++ body))) := by
    have h12 : (12 : Nat) = 8 + 4 := rfl
    rw [h12, ← List.drop_drop, e8]
    rfl
  have e16 : B.drop 16 = le32 c ++ (nonce ++ (tag ++ body)) := by
    have h16 : (16 : Nat) = 12 + 4 := rfl
    rw [h16, ← List.drop_drop, e12]
    exact List.drop_left' (length_le32 a)
  have e20 : B.drop 20 = nonce ++ (tag ++ body) := by
    have h20 : (20 : Nat) = 16 + 4 := rfl
    rw [h20, ← List.drop_drop, e16]
    exact List.drop_left' (length_le32 c)
  have e44 : B.drop 44 = tag ++ body := by
    have h44 : (44 : Nat) = 20 + 24 := rfl
    rw [h44, ← List.drop_drop, e20]
    exact List.drop_left' hn
  have e60 : B.drop 60 = body := by
    have h60 : (60 : Nat) = 44 + 16 := rfl
    rw [h60, ← List.drop_drop, e44]
    exact List.drop_left' ht
  have e60c : B.drop (60 + c) = body.drop c := by
    rw [← List.drop_drop, e60]
  have r1 : read_bytes B 0 MAGIC.length = some (MAGIC, 8) := by
    unfold read_bytes
    rw [if_pos (by rw [hBlen]; show 0 + 8 ≤ 60 + body.length; omega)]
    rw [List.drop_zero]
    have htake : B.take MAGIC.length = MAGIC := by
      rw [hB]
      exact List.take_left MAGIC _
    rw [htake]
    rfl
  have r2 : read_u8 B 8 = some (LUAUCX_VERSION, 9) := by
    unfold read_u8
    have hv : B[8]? = some LUAUCX_VERSION := by
      have h := List.getElem?_drop B 8 0
      rw [e8] at h
      simpa using h.symm
    rw [hv]
  have r3 : read_u8 B 9 = some (AEAD_XCHACHA20, 10) := by
    unfold read_u8
    have hv : B[9]? = some AEAD_XCHACHA20 := by
      have h := List.getElem?_drop B 8 1
      rw [e8] at h
      simpa using h.symm
    rw [hv]
  have r4 : read_u16 B 10 = some (i0 + 256 * i1, 12) := by
    unfold read_u16
    rw [if_pos (by omega)]
    have hd10 : B.drop 10 = i0 :: i1 :: (le32 a ++ (le32 c ++ (nonce ++ (tag ++ body)))) := by
      have h10 : (10 : Nat) = 8 + 2 := rfl
      rw [h10, ← List.drop_drop, e8]
      rfl
    rw [hd10]
    show some (fromLe [i0, i1], 12) = _
    rw [fromLe_pair]
  have r5 : read_u32 B 12 = some (a, 16) := by
    unfold read_u32
    rw [if_pos (by omega)]
    rw [e12, List.take_left' (length_le32 a), fromLe_le32, Nat.mod_eq_of_lt ha]
  have r6 : read_u32 B 16 = some (c, 20) := by
    unfold read_u32
    rw [if_pos (by omega)]
    rw [e16, List.take_left' (length_le32 c), fromLe_le32, Nat.mod_eq_of_lt hc]
  have r7 : read_bytes B 20 NONCE_LEN = some (nonce, 44) := by
    unfold read_bytes
    rw [if_pos (by rw [hBlen]; show 20 + 24 ≤ 60 + body.length; omega)]
    rw [e20]
    show some ((nonce ++ (tag ++ body)).take 24, 44) = some (nonce, 44)
    rw [List.take_left' hn]
  have r8 : read_bytes B 44 TAG_LEN = some (tag, 60) := by
    unfold read_bytes
    rw [if_pos (by rw [hBlen]; show 44 + 16 ≤ 60 + body.length; omega)]
    rw [e44]
    show some ((tag ++ body).take 16, 60) = some (tag, 60)
    rw [List.take_left' ht]
  have r9 : read_bytes B 60 c = some (body.take c, 60 + c) := by
    unfold read_bytes
    rw [if_pos (by omega)]
    rw [e60]
  have r10 : read_bytes B (60 + c) a = some ((body.drop c).take a, 60 + c + a) := by
    unfold read_bytes
    rw [if_pos (by omega)]
    rw [e60c]
  unfold decrypt_bytecode_into
  rw [if_pos hkey]
  rcases hexp with h | h <;> subst h <;>
    simp only [r1, r2, r3, r4, r5, r6, r7, r8, r9, r10, beq_self_eq_true,
      eq_self_iff_true, if_true, ite_true]

/-! ### Single-byte changes to the authenticated stream change the tag -/

theorem set_append_skip (A X : List Nat) (n v : Nat) :
    (A ++ X).set (A.length + n) v = A ++ X.set n v := by
  rw [List.set_append_right _ _ (by omega), Nat.add_sub_cancel_left]

theorem getD_append_skip (A X : List Nat) (n : Nat) :
    (A ++ X).getD (A.length + n) 0 = X.getD n 0 := by
  rw [List.getD_append_right _ _ _ _ (by omega), Nat.add_sub_cancel_left]

theorem tfold_set (l : List Nat) (p v off j : Nat) (hp : p < l.length) :
    tfold off j (l.set p v)
      = if (off + p) % 16 = j then tfold off j l ^^^ (l.getD p 0 ^^^ v)
        else tfold off j l := by
  induction l generalizing off p with
  | nil => simp at hp
  | cons b t ih =>
    cases p with
    | zero =>
      simp only [List.set_cons_zero, List.getD_cons_zero, Nat.add_zero, tfold]
      by_cases h : off % 16 = j
      · rw [if_pos h, if_pos h, if_pos h]
        rw [Nat.xor_comm b (tfold (off + 1) j t), Nat.xor_assoc,
          ← Nat.xor_assoc b b v, Nat.xor_self, Nat.zero_xor,
          Nat.xor_comm (tfold (off + 1) j t) v]
      · rw [if_neg h, if_neg h, if_neg h]
    | succ q =>
      simp only [List.set_cons_succ, List.getD_cons_succ, tfold]
      have harith : off + (q + 1) = off + 1 + q := by omega
      by_cases h : off % 16 = j
      · rw [if_pos h, if_pos h, ih q (off + 1) (by simpa using hp), harith]
        by_cases h2 : (off + 1 + q) % 16 = j
        · rw [if_pos h2, if_pos h2, Nat.xor_assoc]
        · rw [if_neg h2, if_neg h2]
      · rw [if_neg h, if_neg h, ih q (off + 1) (by simpa using hp), harith]

theorem length_pad16 (l : List Nat) : (pad16 l).length = (16 - l.length % 16) % 16 := by
  simp [pad16]

theorem pad16_set (l : List Nat) (n v : Nat) : pad16 (l.set n v) = pad16 l := by
  simp [pad16]

theorem pad16_of_length32 (l : List Nat) (h : l.length = 32) : pad16 l = [] := by
  simp [pad16, h]

theorem macStream_eq (key nonce ct ad : List Nat) (hk : key.length = 32) :
    macStream key nonce ct ad
      = key ++ (nonce ++ (pad16 nonce ++ (ad ++ (pad16 ad ++ (ct ++ (pad16 ct
          ++ (le64 ad.length ++ le64 ct.length))))))) := by
  simp [macStream, pad16_of_length32 _ hk, List.append_assoc]

theorem macStream_set_nonce (key nonce ct ad : List Nat) (hk : key.length = 32)
    (r v : Nat) (hr : r < nonce.length) :
    macStream key (nonce.set r v) ct ad
      = (macStream key nonce ct ad).set (32 + r) v := by
  rw [macStream_eq _ _ _ _ hk, macStream_eq _ _ _ _ hk, pad16_set]
  rw [show (32 : Nat) + r = key.length + r by rw [hk]]
  rw [set_append_skip, List.set_append_left _ _ hr]

theorem macStream_getD_nonce (key nonce ct ad : List Nat) (hk : key.length = 32)
    (r : Nat) (hr : r < nonce.length) :
    (macStream key nonce ct ad).getD (32 + r) 0 = nonce.getD r 0 := by
  rw [macStream_eq _ _ _ _ hk]
  rw [show (32 : Nat) + r = key.length + r by rw [hk]]
  rw [getD_append_skip, List.getD_append _ _ _ _ hr]

theorem macStream_set_ad (key nonce ct ad : List Nat) (hk : key.length = 32)
    (hn : nonce.length = 24) (r v : Nat) (hr : r < ad.length) :
    macStream key nonce ct (ad.set r v)
      = (macStream key nonce ct ad).set (64 + r) v := by
  have hpn : (pad16 nonce).length = 8 := by rw [length_pad16, hn]
  rw [macStream_eq _ _ _ _ hk, macStream_eq _ _ _ _ hk, pad16_set, List.length_set]
  rw [show (64 : Nat) + r = key.length + (32 + r) by rw [hk]; omega]
  rw [set_append_skip]
  rw [show (32 : Nat) + r = nonce.length + (8 + r) by rw [hn]; omega]
  rw [set_append_skip]
  rw [show (8 : Nat) + r = (pad16 nonce).length + r by rw [hpn]]
  rw [set_append_skip, List.set_append_left _ _ hr]

theorem macStream_getD_ad (key nonce ct ad : List Nat) (hk : key.length = 32)
    (hn : nonce.length = 24) (r : Nat) (hr : r < ad.length) :
    (macStream key nonce ct ad).getD (64 + r) 0 = ad.getD r 0 := by
  have hpn : (pad16 nonce).length = 8 := by rw [length_pad16, hn]
  rw [macStream_eq _ _ _ _ hk]
  rw [show (64 : Nat) + r = key.length + (32 + r) by rw [hk]; omega]
  rw [getD_append_skip]
  rw [show (32 : Nat) + r = nonce.length + (8 + r) by rw [hn]; omega]
  rw [getD_append_skip]
  rw [show (8 : Nat) + r = (pad16 nonce).length + r by rw [hpn]]
  rw [getD_append_skip, List.getD_append _ _ _ _ hr]

theorem macStream_set_ct (key nonce ct ad : List Nat) (hk : key.length = 32)
    (hn : nonce.length = 24) (r v : Nat) (hr : r < ct.length) :
    macStream key nonce (ct.set r v) ad
      = (macStream key nonce ct ad).set (64 + (ad.length + ((pad16 ad).length + r))) v := by
  have hpn : (pad16 nonce).length = 8 := by rw [length_pad16, hn]
  rw [macStream_eq _ _ _ _ hk, macStream_eq _ _ _ _ hk, pad16_set, List.length_set]
  rw [show (64 : Nat) + (ad.length + ((pad16 ad).length + r))
      = key.length + (32 + (ad.length + ((pad16 ad).length + r))) by rw [hk]; omega]
  rw [set_append_skip]
  rw [show (32 : Nat) + (ad.length + ((pad16 ad).length + r))
      = nonce.length + (8 + (ad.length + ((pad16 ad).length + r))) by rw [hn]; omega]
  rw [set_append_skip]
  rw [show (8 : Nat) + (ad.length + ((pad16 ad).length + r))
      = (pad16 nonce).length + (ad.length + ((pad16 ad).length + r)) by rw [hpn]]
  rw [set_append_skip, set_append_skip, set_append_skip, List.set_append_left _ _ hr]

theorem macStream_getD_ct (key nonce ct ad : List Nat) (hk : key.length = 32)
    (hn : nonce.length = 24) (r : Nat) (hr : r < ct.length) :
    (macStream key nonce ct ad).getD (64 + (ad.length + ((pad16 ad).length + r))) 0
      = ct.getD r 0 := by
  have hpn : (pad16 nonce).length = 8 := by rw [length_pad16, hn]
  rw [macStream_eq _ _ _ _ hk]
  rw [show (64 : Nat) + (ad.length + ((pad16 ad).length + r))
      = key.length + (32 + (ad.length + ((pad16 ad).length + r))) by rw [hk]; omega]
  rw [getD_append_skip]
  rw [show (32 : Nat) + (ad.length + ((pad16 ad).length + r))
      = nonce.length + (8 + (ad.length + ((pad16 ad).length + r))) by rw [hn]; omega]
  rw [getD_append_skip]
  rw [show (8 : Nat) + (ad.length + ((pad16 ad).length + r))
      = (pad16 nonce).length + (ad.length + ((pad16 ad).length + r)) by rw [hpn]]
  rw [getD_append_skip, getD_append_skip, getD_append_skip, List.getD_append _ _ _ _ hr]

theorem length_macStream (key nonce ct ad : List Nat) (hk : key.length = 32)
    (hn : nonce.length = 24) :
    (macStream key nonce ct ad).length
      = 64 + (ad.length + ((pad16 ad).length + (ct.length + ((pad16 ct).length + 16)))) := by
  have hpn : (pad16 nonce).length = 8 := by rw [length_pad16, hn]
  rw [macStream_eq _ _ _ _ hk]
  simp [hk, hn, hpn, le64]
  omega

theorem getD_map_range (f : Nat → Nat) (j : Nat) (h : j < 16) :
    ((List.range 16).map f).getD j 0 = f j := by
  rw [List.getD_eq_getElem?_getD, List.getElem?_map, List.getElem?_range h]
  rfl

theorem mac_ne_of_set (key nonce ct ad key₂ nonce₂ ct₂ ad₂ : List Nat) (p v : Nat)
    (hp : p < (macStream key nonce ct ad).length)
    (hv : v ≠ (macStream key nonce ct ad).getD p 0)
    (hs : macStream key₂ nonce₂ ct₂ ad₂ = (macStream key nonce ct ad).set p v) :
    mac key₂ nonce₂ ct₂ ad₂ ≠ mac key nonce ct ad := by
  intro h
  have h1 := congrArg (fun t => t.getD (p % 16) 0) h
  simp only [mac, hs] at h1
  rw [getD_map_range _ _ (Nat.mod_lt p (by norm_num)),
    getD_map_range _ _ (Nat.mod_lt p (by norm_num))] at h1
  rw [tfold_set _ _ _ _ _ hp, if_pos (by omega)] at h1
  have h4 := congrArg
    (fun x => tfold 0 (p % 16) (macStream key nonce ct ad) ^^^ x) h1
  simp only [← Nat.xor_assoc, Nat.xor_self, Nat.zero_xor] at h4
  exact hv (Nat.xor_eq_zero.mp h4).symm

/-! ### Characterizing the encoder -/

theorem encrypt_eq (bytecode nonce key : List Nat) (key_id : Nat) (ad : List Nat)
    (hk : key.length = 32) :
    encrypt_bytecode_into bytecode nonce key key_id ad
      = .ok (MAGIC ++ ([LUAUCX_VERSION, AEAD_XCHACHA20, key_id % 2 ^ 16 % 256,
            key_id % 2 ^ 16 / 256 % 256]
          ++ (le32 (ad.length % 2 ^ 32) ++ (le32 (bytecode.length % 2 ^ 32)
          ++ (nonce ++ (mac key nonce (xcrypt key nonce bytecode) ad
          ++ (xcrypt key nonce bytecode ++ ad)))))),
         60 + bytecode.length + ad.length) := by
  unfold encrypt_bytecode_into
  rw [if_pos hk]
  simp only [aeadSeal_take, aeadSeal_drop, length_xcrypt, le16,
    List.append_assoc, List.cons_append, List.nil_append,
    Except.ok.injEq, Prod.mk.injEq]
  constructor
  · trivial
  · norm_num [HEADER_LEN, MAGIC, NONCE_LEN, TAG_LEN]

/-! ### Extracting the declared length fields of a container -/

theorem container_ad_field (i0 i1 a : Nat) (R : List Nat) :
    (((MAGIC ++ ([LUAUCX_VERSION, AEAD_XCHACHA20, i0, i1]
        ++ (le32 a ++ R))).drop 12).take 4) = le32 a := by
  have h12 : (12 : Nat) = 8 + 4 := rfl
  rw [h12, ← List.drop_drop, List.drop_left' (by rfl : MAGIC.length = 8)]
  rw [List.drop_left' (by rfl)]
  exact List.take_left' (length_le32 a)

theorem container_ct_field (i0 i1 a c : Nat) (R : List Nat) :
    (((MAGIC ++ ([LUAUCX_VERSION, AEAD_XCHACHA20, i0, i1]
        ++ (le32 a ++ (le32 c ++ R)))).drop 16).take 4) = le32 c := by
  have h16 : (16 : Nat) = 12 + 4 := rfl
  have h12 : (12 : Nat) = 8 + 4 := rfl
  rw [h16, ← List.drop_drop, h12, ← List.drop_drop,
    List.drop_left' (by rfl : MAGIC.length = 8)]
  rw [List.drop_left' (by rfl), List.drop_left' (length_le32 a)]
  exact List.take_left' (length_le32 c)

/-! ### Inversion of the reader helpers -/

theorem read_bytes_inv (input : List Nat) (off len : Nat) (out : List Nat)
    (off' : Nat) (h : read_bytes input off len = some (out, off')) :
    out = (input.drop off).take len ∧ off' = off + len ∧ off + len ≤ input.length := by
  unfold read_bytes at h
  split at h
  · injection h with h1
    injection h1 with h2 h3
    exact ⟨h2.symm, h3.symm, by assumption⟩
  · cases h

theorem read_u8_inv (input : List Nat) (off : Nat) (v off' : Nat)
    (h : read_u8 input off = some (v, off')) :
    input[off]? = some v ∧ off' = off + 1 := by
  unfold read_u8 at h
  split at h
  · injection h with h1
    injection h1 with h2 h3
    subst h2 h3
    constructor
    · assumption
    · rfl
  · cases h

theorem read_u16_inv (input : List Nat) (off : Nat) (v off' : Nat)
    (h : read_u16 input off = some (v, off')) :
    v = fromLe ((input.drop off).take 2) ∧ off' = off + 2
      ∧ off + 2 ≤ input.length := by
  unfold read_u16 at h
  split at h
  · injection h with h1
    injection h1 with h2 h3
    exact ⟨h2.symm, h3.symm, by assumption⟩
  · cases h

theorem read_u32_inv (input : List Nat) (off : Nat) (v off' : Nat)
    (h : read_u32 input off = some (v, off')) :
    v = fromLe ((input.drop off).take 4) ∧ off' = off + 4
      ∧ off + 4 ≤ input.length := by
  unfold read_u32 at h
  split at h
  · injection h with h1
    injection h1 with h2 h3
    exact ⟨h2.symm, h3.symm, by assumption⟩
  · cases h

theorem aeadOpen_some_inv (key nonce msg ad pt : List Nat)
    (h : aeadOpen key nonce msg ad = some pt) :
    pt = xcrypt key nonce (msg.take (msg.length - TAG_LEN)) := by
  unfold aeadOpen at h
  split at h
  · cases h
  · split at h
    · injection h with h1
      exact h1.symm
    · cases h

/-! ### Full inversion of a successful decode -/

theorem decrypt_ok_inv (blob key : List Nat) (exp : Option Nat) (want : Bool)
    (pt : List Nat) (adOut : Option (List Nat))
    (h : decrypt_bytecode_into blob key exp want = .ok pt adOut) :
    ∃ kid adlen ctlen, ∃ noncev tagv ctv adv : List Nat,
      key.length = 32
      ∧ read_bytes blob 0 MAGIC.length = some (MAGIC, 8)
      ∧ read_u8 blob 8 = some (LUAUCX_VERSION, 9)
      ∧ read_u8 blob 9 = some (AEAD_XCHACHA20, 10)
      ∧ read_u16 blob 10 = some (kid, 12)
      ∧ (match exp with | some e => e == kid | none => true) = true
      ∧ read_u32 blob 12 = some (adlen, 16)
      ∧ read_u32 blob 16 = some (ctlen, 20)
      ∧ read_bytes blob 20 NONCE_LEN = some (noncev, 44)
      ∧ read_bytes blob 44 TAG_LEN = some (tagv, 60)
      ∧ read_bytes blob 60 ctlen = some (ctv, 60 + ctlen)
      ∧ read_bytes blob (60 + ctlen) adlen = some (adv, 60 + ctlen + adlen)
      ∧ aeadOpen key noncev (ctv ++ tagv) adv = some pt
      ∧ adOut = (if want then some adv else none) := by
  unfold decrypt_bytecode_into at h
  split at h
  case isTrue hkey =>
    split at h
    case h_1 => cases h
    case h_2 magic off1 heq1 =>
      split at h
      case isTrue hmag =>
        split at h
        case h_1 => cases h
        case h_2 ver off2 heq2 =>
          split at h
          case isTrue hver =>
            split at h
            case h_1 => cases h
            case h_2 aead off3 heq3 =>
              split at h
              case isTrue haead =>
                split at h
                case h_1 => cases h
                case h_2 kid off4 heq4 =>
                  split at h
                  case isTrue hexp =>
                    split at h
                    case h_1 => cases h
                    case h_2 adlen off5 heq5 =>
                      split at h
                      case h_1 => cases h
                      case h_2 ctlen off6 heq6 =>
                        split at h
                        case h_1 => cases h
                        case h_2 noncev off7 heq7 =>
                          split at h
                          case h_1 => cases h
                          case h_2 tagv off8 heq8 =>
                            split at h
                            case h_1 => cases h
                            case h_2 ctv off9 heq9 =>
                              split at h
                              case h_1 => cases h
                              case h_2 adv off10 heq10 =>
                                split at h
                                case h_1 => cases h
                                case h_2 ptv heqOpen =>
                                  injection h with hpt hado
                                  subst hpt hver haead hmag
                                  obtain ⟨_, ho1, _⟩ := read_bytes_inv _ _ _ _ _ heq1
                                  subst ho1
                                  rw [show (0 + MAGIC.length : Nat) = 8 from rfl] at heq2
                                  obtain ⟨_, ho2⟩ := read_u8_inv _ _ _ _ heq2
                                  subst ho2
                                  obtain ⟨_, ho3⟩ := read_u8_inv _ _ _ _ heq3
                                  subst ho3
                                  obtain ⟨_, ho4, _⟩ := read_u16_inv _ _ _ _ heq4
                                  subst ho4
                                  obtain ⟨_, ho5, _⟩ := read_u32_inv _ _ _ _ heq5
                                  subst ho5
                                  obtain ⟨_, ho6, _⟩ := read_u32_inv _ _ _ _ heq6
                                  subst ho6
                                  obtain ⟨_, ho7, _⟩ := read_bytes_inv _ _ _ _ _ heq7
                                  subst ho7
                                  rw [show (8 + 1 + 1 + 2 + 4 + 4 + NONCE_LEN : Nat) = 44
                                    from rfl] at heq8
                                  obtain ⟨_, ho8, _⟩ := read_bytes_inv _ _ _ _ _ heq8
                                  subst ho8
                                  rw [show (44 + TAG_LEN : Nat) = 60 from rfl] at heq9
                                  obtain ⟨_, ho9, _⟩ := read_bytes_inv _ _ _ _ _ heq9
                                  subst ho9
                                  obtain ⟨_, ho10, _⟩ := read_bytes_inv _ _ _ _ _ heq10
                                  subst ho10
                                  refine ⟨kid, adlen, ctlen, noncev, tagv, ctv, adv,
                                    hkey, ?_, heq2, heq3, heq4, hexp, heq5, heq6,
                                    ?_, ?_, heq9, heq10, heqOpen, hado.symm⟩
                                  · rw [show (0 + MAGIC.length : Nat) = 8 from rfl] at heq1
                                    exact heq1
                                  · exact heq7
                                  · exact heq8
                  case isFalse => cases h
              case isFalse => cases h
          case isFalse => cases h
      case isFalse => cases h
  case isFalse => cases h

/-- Recomputing a decode from the read-step facts recorded by `decrypt_ok_inv`. -/
theorem decrypt_of_facts (blob key : List Nat) (exp : Option Nat) (want : Bool)
    (kid adlen ctlen : Nat) (noncev tagv ctv adv pt : List Nat)
    (hkey : key.length = 32)
    (f1 : read_bytes blob 0 MAGIC.length = some (MAGIC, 8))
    (f2 : read_u8 blob 8 = some (LUAUCX_VERSION, 9))
    (f3 : read_u8 blob 9 = some (AEAD_XCHACHA20, 10))
    (f4 : read_u16 blob 10 = some (kid, 12))
    (f5 : (match exp with | some e => e == kid | none => true) = true)
    (f6 : read_u32 blob 12 = some (adlen, 16))
    (f7 : read_u32 blob 16 = some (ctlen, 20))
    (f8 : read_bytes blob 20 NONCE_LEN = some (noncev, 44))
    (f9 : read_bytes blob 44 TAG_LEN = some (tagv, 60))
    (f10 : read_bytes blob 60 ctlen = some (ctv, 60 + ctlen))
    (f11 : read_bytes blob (60 + ctlen) adlen = some (adv, 60 + ctlen + adlen))
    (f12 : aeadOpen key noncev (ctv ++ tagv) adv = some pt) :
    decrypt_bytecode_into blob key exp want
      = .ok pt (if want then some adv else none) := by
  unfold decrypt_bytecode_into
  rw [if_pos hkey]
  simp only [f1, f2, f3, f4, f5, f6, f7, f8, f9, f10, f11, f12,
    eq_self_iff_true, if_true, ite_true]

/-! ### Reads are unaffected by appending trailing bytes -/

theorem read_bytes_mono (b s : List Nat) (o l : Nat) (out : List Nat) (o' : Nat)
    (h : read_bytes b o l = some (out, o')) :
    read_bytes (b ++ s) o l = some (out, o') := by
  obtain ⟨hout, ho, hle⟩ := read_bytes_inv _ _ _ _ _ h
  subst hout ho
  unfold read_bytes
  rw [if_pos (by simp only [List.length_append]; omega)]
  rw [List.drop_append_eq_append_drop, List.take_append_eq_append_take]
  have h1 : o - b.length = 0 := by omega
  have h2 : l - (b.drop o).length = 0 := by
    simp only [List.length_drop]
    omega
  rw [h1, h2]
  simp

theorem read_u8_mono (b s : List Nat) (o : Nat) (v o' : Nat)
    (h : read_u8 b o = some (v, o')) :
    read_u8 (b ++ s) o = some (v, o') := by
  obtain ⟨hv, ho⟩ := read_u8_inv _ _ _ _ h
  subst ho
  have hlt : o < b.length := by
    by_contra hge
    rw [List.getElem?_eq_none (by omega)] at hv
    cases hv
  unfold read_u8
  rw [List.getElem?_append_left hlt, hv]

theorem read_u16_mono (b s : List Nat) (o : Nat) (v o' : Nat)
    (h : read_u16 b o = some (v, o')) :
    read_u16 (b ++ s) o = some (v, o') := by
  obtain ⟨hv, ho, hle⟩ := read_u16_inv _ _ _ _ h
  subst hv ho
  unfold read_u16
  rw [if_pos (by simp only [List.length_append]; omega)]
  rw [List.drop_append_eq_append_drop, List.take_append_eq_append_take]
  have h1 : o - b.length = 0 := by omega
  have h2 : 2 - (b.drop o).length = 0 := by
    simp only [List.length_drop]
    omega
  rw [h1, h2]
  simp

theorem read_u32_mono (b s : List Nat) (o : Nat) (v o' : Nat)
    (h : read_u32 b o = some (v, o')) :
    read_u32 (b ++ s) o = some (v, o') := by
  obtain ⟨hv, ho, hle⟩ := read_u32_inv _ _ _ _ h
  subst hv ho
  unfold read_u32
  rw [if_pos (by simp only [List.length_append]; omega)]
  rw [List.drop_append_eq_append_drop, List.take_append_eq_append_take]
  have h1 : o - b.length = 0 := by omega
  have h2 : 4 - (b.drop o).length = 0 := by
    simp only [List.length_drop]
    omega
  rw [h1, h2]
  simp

/-- On any accepted input, the plaintext and AD written have exactly the
lengths declared by the `ct_len` and `ad_len` header fields. -/
theorem decrypt_ok_lengths (blob key : List Nat) (exp : Option Nat) (want : Bool)
    (pt : List Nat) (adOut : Option (List Nat))
    (h : decrypt_bytecode_into blob key exp want = .ok pt adOut) :
    pt.length = fromLe ((blob.drop 16).take 4)
      ∧ ∀ adb, adOut = some adb → adb.length = fromLe ((blob.drop 12).take 4) := by
  obtain ⟨kid, adlen, ctlen, noncev, tagv, ctv, adv, hkey, f1, f2, f3, f4, f5,
    f6, f7, f8, f9, f10, f11, f12, f13⟩ := decrypt_ok_inv _ _ _ _ _ _ h
  obtain ⟨hadlen, _, _⟩ := read_u32_inv _ _ _ _ f6
  obtain ⟨hctlen, _, _⟩ := read_u32_inv _ _ _ _ f7
  obtain ⟨htagv, _, htle⟩ := read_bytes_inv _ _ _ _ _ f9
  obtain ⟨hctv, _, hcle⟩ := read_bytes_inv _ _ _ _ _ f10
  obtain ⟨hadv, _, hale⟩ := read_bytes_inv _ _ _ _ _ f11
  have hlenctv : ctv.length = ctlen := by
    rw [hctv, List.length_take, List.length_drop]
    omega
  have hlentagv : tagv.length = 16 := by
    rw [htagv, List.length_take, List.length_drop]
    simp only [TAG_LEN] at htle ⊢
    omega
  have hlenadv : adv.length = adlen := by
    rw [hadv, List.length_take, List.length_drop]
    omega
  have hpt := aeadOpen_some_inv _ _ _ _ _ f12
  have hL : (ctv ++ tagv).length = ctlen + 16 := by
    rw [List.length_append, hlenctv, hlentagv]
  have hlenpt : pt.length = ctlen := by
    rw [hpt, length_xcrypt, List.length_take, hL]
    simp only [TAG_LEN]
    omega
  constructor
  · rw [hlenpt, hctlen]
  · intro adb hadb
    rw [f13] at hadb
    cases want
    · simp at hadb
    · simp only [if_true, ite_true, Option.some.injEq] at hadb
      rw [← hadb, hlenadv, hadlen]

/-- C10: trailing bytes are ignored — appending any suffix to an accepted
container leaves the decode result (plaintext and AD outputs) unchanged,
because the decoder never checks that the buffer length equals
`60 + ct_len + ad_len`. -/
theorem C10_trailing_bytes_ignored (blob S key : List Nat) (exp : Option Nat)
    (want : Bool) (pt : List Nat) (adOut : Option (List Nat))
    (h : decrypt_bytecode_into blob key exp want = .ok pt adOut) :
    decrypt_bytecode_into (blob ++ S) key exp want = .ok pt adOut := by
  obtain ⟨kid, adlen, ctlen, noncev, tagv, ctv, adv, hkey, f1, f2, f3, f4, f5,
    f6, f7, f8, f9, f10, f11, f12, f13⟩ := decrypt_ok_inv _ _ _ _ _ _ h
  rw [f13]
  exact decrypt_of_facts _ _ _ _ _ _ _ _ _ _ _ _ hkey
    (read_bytes_mono _ _ _ _ _ _ f1) (read_u8_mono _ _ _ _ _ f2)
    (read_u8_mono _ _ _ _ _ f3) (read_u16_mono _ _ _ _ _ f4) f5
    (read_u32_mono _ _ _ _ _ f6) (read_u32_mono _ _ _ _ _ f7)
    (read_bytes_mono _ _ _ _ _ _ f8) (read_bytes_mono _ _ _ _ _ _ f9)
    (read_bytes_mono _ _ _ _ _ _ f10) (read_bytes_mono _ _ _ _ _ _ f11) f12

/-- Witness for C10: a concrete 67-byte container decodes to
(`"hello"`, `"v1"`), and so does the same container with `[1, 2, 3]`
appended. -/
theorem C10_trailing_bytes_ignored_witness :
    decrypt_bytecode_into
        ([76, 85, 65, 85, 66, 89, 84, 88, 1, 1, 7, 0, 2, 0, 0, 0, 5, 0, 0, 0,
          0, 0, 0, 0, 0, 0, 0, 0, 0, 0, 0, 0, 0, 0, 0, 0, 0, 0, 0, 0, 0, 0, 0, 0,
          28, 85, 110, 111, 107, 0, 0, 0, 5, 0, 0, 0, 0, 0, 0, 0,
          104, 100, 110, 111, 107, 118, 49] ++ [1, 2, 3])
        (List.replicate 32 0) (some 7) true
      = .ok [104, 101, 108, 108, 111] (some [118, 49]) :=
  C10_trailing_bytes_ignored _ _ _ _ _ _ _ (by decide)

/-- C2: the claim asserts that a too-short buffer (or declared lengths larger
than the remaining buffer) yields a TruncatedInput error without panicking.
The code has no such check: `read_bytes`/`read_u8`/`read_u16`/`read_u32`
index the slice unconditionally, so the empty input panics during the magic
read, and a 60-byte header declaring `ct_len = 5` with no body panics during
the ciphertext read. -/
theorem C2_truncated_input_panics :
    decrypt_bytecode_into [] (List.replicate 32 0) none true = DecOut.panic
      ∧ decrypt_bytecode_into
          (MAGIC ++ [LUAUCX_VERSION, AEAD_XCHACHA20, 0, 0] ++ le32 0 ++ le32 5
            ++ List.replicate 24 0 ++ List.replicate 16 0)
          (List.replicate 32 0) none true = DecOut.panic := by
  constructor
  · decide
  · decide

/-- The four fixed reads over any buffer starting with the magic and four
more header bytes. -/
theorem reads_prefix12 (i0 i1 v a : Nat) (rest : List Nat) :
    read_bytes (MAGIC ++ ([v, a, i0, i1] ++ rest)) 0 MAGIC.length = some (MAGIC, 8)
    ∧ read_u8 (MAGIC ++ ([v, a, i0, i1] ++ rest)) 8 = some (v, 9)
    ∧ read_u8 (MAGIC ++ ([v, a, i0, i1] ++ rest)) 9 = some (a, 10)
    ∧ read_u16 (MAGIC ++ ([v, a, i0, i1] ++ rest)) 10 = some (i0 + 256 * i1, 12) := by
  have e8 : (MAGIC ++ ([v, a, i0, i1] ++ rest)).drop 8 = [v, a, i0, i1] ++ rest := by
    rw [show (8 : Nat) = MAGIC.length from rfl]
    exact List.drop_left _ _
  have hlen : (MAGIC ++ ([v, a, i0, i1] ++ rest)).length = 12 + rest.length := by
    simp [MAGIC]
    omega
  refine ⟨?_, ?_, ?_, ?_⟩
  · unfold read_bytes
    rw [if_pos (by rw [hlen]; show 0 + 8 ≤ 12 + rest.length; omega)]
    rw [List.drop_zero, List.take_left' (by rfl : MAGIC.length = MAGIC.length)]
    rfl
  · unfold read_u8
    have hv : (MAGIC ++ ([v, a, i0, i1] ++ rest))[8]? = some v := by
      have h := List.getElem?_drop (MAGIC ++ ([v, a, i0, i1] ++ rest)) 8 0
      rw [e8] at h
      simpa using h.symm
    rw [hv]
  · unfold read_u8
    have hv : (MAGIC ++ ([v, a, i0, i1] ++ rest))[9]? = some a := by
      have h := List.getElem?_drop (MAGIC ++ ([v, a, i0, i1] ++ rest)) 8 1
      rw [e8] at h
      simpa using h.symm
    rw [hv]
  · unfold read_u16
    rw [if_pos (by rw [hlen]; show 10 + 2 ≤ 12 + rest.length; omega)]
    have hd10 : (MAGIC ++ ([v, a, i0, i1] ++ rest)).drop 10 = i0 :: i1 :: rest := by
      rw [show (10 : Nat) = 8 + 2 from rfl, ← List.drop_drop, e8]
      rfl
    rw [hd10]
    show some (fromLe [i0, i1], 12) = _
    rw [fromLe_pair]

/-- C4: key id gating happens before the cipher — whatever follows the
12-byte prefix (in particular an arbitrarily corrupted ciphertext), a header
key id different from the expected one yields `keyIdMismatch`, never
`authError`. -/
theorem C4_key_id_gating (i0 i1 X : Nat) (rest key : List Nat) (want : Bool)
    (hk : key.length = 32) (hx : X ≠ i0 + 256 * i1) :
    decrypt_bytecode_into (MAGIC ++ ([LUAUCX_VERSION, AEAD_XCHACHA20, i0, i1] ++ rest))
        key (some X) want = .err .keyIdMismatch := by
  obtain ⟨r1, r2, r3, r4⟩ := reads_prefix12 i0 i1 LUAUCX_VERSION AEAD_XCHACHA20 rest
  unfold decrypt_bytecode_into
  rw [if_pos hk]
  simp only [r1, r2, r3, r4, eq_self_iff_true, if_true, ite_true]
  rw [if_neg (by simp [hx])]

/-- Witness for C4: expected id 8 against header id 7, with garbage after
the key id field. -/
theorem C4_key_id_gating_witness :
    decrypt_bytecode_into (MAGIC ++ ([LUAUCX_VERSION, AEAD_XCHACHA20, 7, 0] ++ [9, 9, 9]))
        (List.replicate 32 0) (some 8) true = .err .keyIdMismatch :=
  C4_key_id_gating 7 0 8 [9, 9, 9] _ true (by decide) (by decide)

/-- C6: an unsupported version byte is rejected with the FormatError kind,
whatever the rest of the buffer holds; likewise an unsupported cipher id
byte. -/
theorem C6_version_cipher_rejection (key : List Nat) (hk : key.length = 32)
    (want : Bool) (exp : Option Nat) :
    (∀ v a i0 i1 : Nat, ∀ rest : List Nat, v ≠ LUAUCX_VERSION →
      decrypt_bytecode_into (MAGIC ++ ([v, a, i0, i1] ++ rest)) key exp want
        = .err .formatError)
    ∧ (∀ a i0 i1 : Nat, ∀ rest : List Nat, a ≠ AEAD_XCHACHA20 →
      decrypt_bytecode_into (MAGIC ++ ([LUAUCX_VERSION, a, i0, i1] ++ rest)) key exp want
        = .err .formatError) := by
  constructor
  · intro v a i0 i1 rest hv
    obtain ⟨r1, r2, r3, r4⟩ := reads_prefix12 i0 i1 v a rest
    unfold decrypt_bytecode_into
    rw [if_pos hk]
    simp only [r1, r2, eq_self_iff_true, if_true, ite_true]
    rw [if_neg hv]
  · intro a i0 i1 rest ha
    obtain ⟨r1, r2, r3, r4⟩ := reads_prefix12 i0 i1 LUAUCX_VERSION a rest
    unfold decrypt_bytecode_into
    rw [if_pos hk]
    simp only [r1, r2, r3, eq_self_iff_true, if_true, ite_true]
    rw [if_neg ha]

/-- Witness for C6: version byte 2 and cipher id byte 2 are both rejected on
an otherwise plausible buffer. -/
theorem C6_version_cipher_rejection_witness :
    decrypt_bytecode_into (MAGIC ++ ([2, 1, 7, 0] ++ List.replicate 48 0))
        (List.replicate 32 0) none true = .err .formatError
    ∧ decrypt_bytecode_into (MAGIC ++ ([1, 2, 7, 0] ++ List.replicate 48 0))
        (List.replicate 32 0) none true = .err .formatError :=
  ⟨(C6_version_cipher_rejection (List.replicate 32 0) (by decide) true none).1
      2 1 7 0 (List.replicate 48 0) (by decide),
   (C6_version_cipher_rejection (List.replicate 32 0) (by decide) true none).2
      2 7 0 (List.replicate 48 0) (by decide)⟩

/-- C8: a key of any length other than 32 makes both operations fail with
the KeyError kind before anything else (in particular the decoder fails this
way even on an empty or garbage buffer), and a 32-byte key passes the check
on both operations (the encoder then succeeds, and the decoder never
reports KeyError). -/
theorem C8_key_length_precondition (key P nonce ad blob : List Nat) (kid : Nat)
    (exp : Option Nat) (want : Bool) :
    (key.length ≠ 32 →
      encrypt_bytecode_into P nonce key kid ad = .error .keyError
        ∧ decrypt_bytecode_into blob key exp want = .err .keyError)
    ∧ (key.length = 32 →
      (∃ r, encrypt_bytecode_into P nonce key kid ad = .ok r)
        ∧ decrypt_bytecode_into blob key exp want ≠ .err .keyError) := by
  constructor
  · intro hk
    constructor
    · unfold encrypt_bytecode_into
      rw [if_neg hk]
    · unfold decrypt_bytecode_into
      rw [if_neg hk]
  · intro hk
    constructor
    · exact ⟨_, encrypt_eq _ _ _ _ _ hk⟩
    · intro hcontra
      unfold decrypt_bytecode_into at hcontra
      rw [if_pos hk] at hcontra
      repeat' split at hcontra
      all_goals simp at hcontra

/-- Witness for C8: a 31-byte key fails both ways; a 32-byte key passes. -/
theorem C8_key_length_precondition_witness :
    (encrypt_bytecode_into [1] [] (List.replicate 31 0) 0 [] = .error .keyError
      ∧ decrypt_bytecode_into [] (List.replicate 31 0) none true = .err .keyError)
    ∧ ((∃ r, encrypt_bytecode_into [1] (List.replicate 24 0) (List.replicate 32 0) 0 []
          = .ok r)
      ∧ decrypt_bytecode_into [] (List.replicate 32 0) none true ≠ .err .keyError) :=
  ⟨(C8_key_length_precondition (List.replicate 31 0) [1] [] [] [] 0 none true).1
      (by decide),
   (C8_key_length_precondition (List.replicate 32 0) [1] (List.replicate 24 0) [] [] 0
      none true).2 (by decide)⟩

/-- C5 (amended): every successful encode writes exactly magic, version,
cipher id, LE key id, LE ad_len, LE ct_len, nonce, tag, ciphertext, AD in
that order and returns `60 + |ciphertext| + |AD|`; the two length fields
hold the lengths reduced modulo `2 ^ 32`, which equal the actual lengths
whenever those are below `2 ^ 32`. -/
theorem C5_encoder_layout (P nonce key : List Nat) (kid : Nat) (ad : List Nat)
    (hk : key.length = 32) :
    encrypt_bytecode_into P nonce key kid ad
      = .ok (MAGIC ++ [LUAUCX_VERSION, AEAD_XCHACHA20] ++ le16 (kid % 2 ^ 16)
          ++ le32 (ad.length % 2 ^ 32) ++ le32 ((xcrypt key nonce P).length % 2 ^ 32)
          ++ nonce ++ mac key nonce (xcrypt key nonce P) ad
          ++ xcrypt key nonce P ++ ad,
        60 + (xcrypt key nonce P).length + ad.length)
    ∧ (xcrypt key nonce P).length = P.length
    ∧ (ad.length < 2 ^ 32 → fromLe (le32 (ad.length % 2 ^ 32)) = ad.length)
    ∧ (P.length < 2 ^ 32 →
        fromLe (le32 ((xcrypt key nonce P).length % 2 ^ 32)) = P.length) := by
  refine ⟨?_, length_xcrypt _ _ _, ?_, ?_⟩
  · rw [encrypt_eq _ _ _ _ _ hk]
    simp [le16, List.append_assoc, length_xcrypt]
  · intro h
    rw [fromLe_le32, Nat.mod_mod_of_dvd _ dvd_rfl, Nat.mod_eq_of_lt h]
  · intro h
    rw [fromLe_le32, Nat.mod_mod_of_dvd _ dvd_rfl, length_xcrypt,
      Nat.mod_eq_of_lt h]

/-- Witness for C5 at the concrete pinned scenario inputs. -/
theorem C5_encoder_layout_witness :
    encrypt_bytecode_into [104, 101, 108, 108, 111] (List.replicate 24 0)
        (List.replicate 32 0) 7 [118, 49]
      = .ok (MAGIC ++ [LUAUCX_VERSION, AEAD_XCHACHA20] ++ le16 (7 % 2 ^ 16)
          ++ le32 (([118, 49] : List Nat).length % 2 ^ 32)
          ++ le32 ((xcrypt (List.replicate 32 0) (List.replicate 24 0)
              [104, 101, 108, 108, 111]).length % 2 ^ 32)
          ++ List.replicate 24 0
          ++ mac (List.replicate 32 0) (List.replicate 24 0)
              (xcrypt (List.replicate 32 0) (List.replicate 24 0)
                [104, 101, 108, 108, 111]) [118, 49]
          ++ xcrypt (List.replicate 32 0) (List.replicate 24 0)
              [104, 101, 108, 108, 111] ++ [118, 49],
        60 + (xcrypt (List.replicate 32 0) (List.replicate 24 0)
              [104, 101, 108, 108, 111]).length + ([118, 49] : List Nat).length)
    ∧ (xcrypt (List.replicate 32 0) (List.replicate 24 0)
        [104, 101, 108, 108, 111]).length = ([104, 101, 108, 108, 111] : List Nat).length
    ∧ (([118, 49] : List Nat).length < 2 ^ 32 →
        fromLe (le32 (([118, 49] : List Nat).length % 2 ^ 32))
          = ([118, 49] : List Nat).length)
    ∧ (([104, 101, 108, 108, 111] : List Nat).length < 2 ^ 32 →
        fromLe (le32 ((xcrypt (List.replicate 32 0) (List.replicate 24 0)
            [104, 101, 108, 108, 111]).length % 2 ^ 32))
          = ([104, 101, 108, 108, 111] : List Nat).length) :=
  C5_encoder_layout [104, 101, 108, 108, 111] (List.replicate 24 0)
    (List.replicate 32 0) 7 [118, 49] (by decide)

/-- C5 counterexample: with a `2 ^ 32`-byte AD the encoder succeeds but the
written `ad_len` field decodes to `0`, which is not the AD length — the
claim as stated (field equals the AD length on every successful call) is
false. -/
theorem C5_encoder_layout_cex :
    (encrypt_bytecode_into [] (List.replicate 24 0) (List.replicate 32 0) 0
        (List.replicate (2 ^ 32) 0)).map
      (fun p => fromLe ((p.1.drop 12).take 4))
      = .ok 0
    ∧ (List.replicate (2 ^ 32) (0 : Nat)).length ≠ 0 := by
  constructor
  · rw [encrypt_eq _ _ _ _ _ (by simp)]
    simp only [Except.map]
    rw [container_ad_field, fromLe_le32, List.length_replicate]
    norm_num
  · rw [List.length_replicate]
    norm_num

/-- C7: the pinned concrete scenario — 32-zero-byte key, key id 7,
plaintext `"hello"`, AD `"v1"`, all-zero 24-byte nonce: the encoder
deterministically produces a 67-byte container whose first 20 bytes are the
pinned header, and decoding that container with the same key and expected
id 7 yields exactly `"hello"` with AD `"v1"`. -/
theorem C7_concrete_scenario :
    ∃ c : List Nat,
      encrypt_bytecode_into [104, 101, 108, 108, 111] (List.replicate 24 0)
          (List.replicate 32 0) 7 [118, 49] = .ok (c, 67)
      ∧ c.length = 67
      ∧ c.take 20 = MAGIC ++ [1, 1, 7, 0, 2, 0, 0, 0, 5, 0, 0, 0]
      ∧ decrypt_bytecode_into c (List.replicate 32 0) (some 7) true
          = .ok [104, 101, 108, 108, 111] (some [118, 49]) := by
  refine ⟨[76, 85, 65, 85, 66, 89, 84, 88, 1, 1, 7, 0, 2, 0, 0, 0, 5, 0, 0, 0,
      0, 0, 0, 0, 0, 0, 0, 0, 0, 0, 0, 0, 0, 0, 0, 0, 0, 0, 0, 0, 0, 0, 0, 0,
      28, 85, 110, 111, 107, 0, 0, 0, 5, 0, 0, 0, 0, 0, 0, 0,
      104, 100, 110, 111, 107, 118, 49], ?_, ?_, ?_, ?_⟩
  · rfl
  · decide
  · decide
  · decide

/-- C1 (amended): the round trip holds for every plaintext and AD shorter
than `2 ^ 32` bytes — encode then decode under the same 32-byte key and
`expected_key_id = some ID` returns exactly the plaintext to the plaintext
sink and the AD to the AD sink, with return value `(|P|, some |A|)`.  (For
`|P|` or `|A|` at least `2 ^ 32` the claim fails; see the counterexample.) -/
theorem C1_round_trip (P nonce key A : List Nat) (ID : Nat) (cont : List Nat)
    (sz : Nat) (hk : key.length = 32) (hn : nonce.length = 24)
    (hID : ID < 2 ^ 16) (hP : P.length < 2 ^ 32) (hA : A.length < 2 ^ 32)
    (henc : encrypt_bytecode_into P nonce key ID A = .ok (cont, sz)) :
    decrypt_bytecode_into cont key (some ID) true = .ok P (some A)
      ∧ dec_ret (decrypt_bytecode_into cont key (some ID) true)
          = some (P.length, some A.length) := by
  rw [encrypt_eq _ _ _ _ _ hk] at henc
  simp only [Except.ok.injEq, Prod.mk.injEq] at henc
  obtain ⟨hcont, hsz⟩ := henc
  subst hcont
  have hID' : ID % 2 ^ 16 = ID := Nat.mod_eq_of_lt hID
  have hA' : A.length % 2 ^ 32 = A.length := Nat.mod_eq_of_lt hA
  have hP' : P.length % 2 ^ 32 = P.length := Nat.mod_eq_of_lt hP
  rw [hID', hA', hP']
  have hID65536 : ID < 65536 := by
    have h := hID
    norm_num at h
    exact h
  have hlay := decrypt_layout key nonce (mac key nonce (xcrypt key nonce P) A)
      (xcrypt key nonce P ++ A) (ID % 256) (ID / 256 % 256) A.length P.length
      (some ID) true hk hn (length_mac _ _ _ _) hA hP
      (by rw [List.length_append, length_xcrypt])
      (Or.inr (by congr 1; omega))
  rw [hlay]
  have htake : (xcrypt key nonce P ++ A).take P.length = xcrypt key nonce P :=
    List.take_left' (length_xcrypt _ _ _)
  have hdrop : (xcrypt key nonce P ++ A).drop P.length = A :=
    List.drop_left' (length_xcrypt _ _ _)
  rw [htake, hdrop, List.take_length]
  rw [show xcrypt key nonce P ++ mac key nonce (xcrypt key nonce P) A
      = aeadSeal key nonce P A from rfl]
  rw [aeadOpen_aeadSeal]
  simp [dec_ret]

/-- Witness for C1 at the concrete pinned scenario. -/
theorem C1_round_trip_witness :
    decrypt_bytecode_into
        [76, 85, 65, 85, 66, 89, 84, 88, 1, 1, 7, 0, 2, 0, 0, 0, 5, 0, 0, 0,
          0, 0, 0, 0, 0, 0, 0, 0, 0, 0, 0, 0, 0, 0, 0, 0, 0, 0, 0, 0, 0, 0, 0, 0,
          28, 85, 110, 111, 107, 0, 0, 0, 5, 0, 0, 0, 0, 0, 0, 0,
          104, 100, 110, 111, 107, 118, 49]
        (List.replicate 32 0) (some 7) true
      = .ok [104, 101, 108, 108, 111] (some [118, 49])
    ∧ dec_ret (decrypt_bytecode_into
        [76, 85, 65, 85, 66, 89, 84, 88, 1, 1, 7, 0, 2, 0, 0, 0, 5, 0, 0, 0,
          0, 0, 0, 0, 0, 0, 0, 0, 0, 0, 0, 0, 0, 0, 0, 0, 0, 0, 0, 0, 0, 0, 0, 0,
          28, 85, 110, 111, 107, 0, 0, 0, 5, 0, 0, 0, 0, 0, 0, 0,
          104, 100, 110, 111, 107, 118, 49]
        (List.replicate 32 0) (some 7) true)
      = some (5, some 2) :=
  C1_round_trip [104, 101, 108, 108, 111] (List.replicate 24 0)
    (List.replicate 32 0) [118, 49] 7 _ 67 (by decide) (by decide) (by decide)
    (by decide) (by decide) (by rfl)

/-- C1 counterexample: for AD consisting of `2 ^ 32` zero bytes the round
trip fails — decoding the encoded container cannot return the original AD,
because the decoder trusts the truncated `ad_len` field (which reads 0). -/
theorem C1_round_trip_cex :
    (encrypt_bytecode_into [] (List.replicate 24 0) (List.replicate 32 0) 0
        (List.replicate (2 ^ 32) 0)).map
      (fun p => decrypt_bytecode_into p.1 (List.replicate 32 0) (some 0) true)
      ≠ .ok (.ok [] (some (List.replicate (2 ^ 32) 0))) := by
  rw [encrypt_eq _ _ _ _ _ (by simp)]
  simp only [Except.map]
  intro hcontra
  simp only [Except.ok.injEq] at hcontra
  obtain ⟨_, hlen⟩ := decrypt_ok_lengths _ _ _ _ _ _ hcontra
  have h := hlen (List.replicate (2 ^ 32) 0) rfl
  rw [container_ad_field, fromLe_le32, List.length_replicate] at h
  norm_num at h

/-- C9: the `ad_len` and `ct_len` fields are written as the actual lengths
reduced modulo `2 ^ 32` (the unchecked `as u32` cast); once either length
reaches `2 ^ 32` the declared field no longer equals the length of the data
actually written, and such a container cannot round-trip. -/
theorem C9_length_field_truncation (P nonce key A : List Nat) (ID : Nat)
    (hk : key.length = 32)
    (hbig : 2 ^ 32 ≤ A.length ∨ 2 ^ 32 ≤ P.length) :
    (encrypt_bytecode_into P nonce key ID A).map
        (fun p => (fromLe ((p.1.drop 12).take 4), fromLe ((p.1.drop 16).take 4)))
      = .ok (A.length % 2 ^ 32, P.length % 2 ^ 32)
    ∧ (2 ^ 32 ≤ A.length → A.length % 2 ^ 32 ≠ A.length)
    ∧ (2 ^ 32 ≤ P.length → P.length % 2 ^ 32 ≠ P.length)
    ∧ ∀ exp : Option Nat,
        (encrypt_bytecode_into P nonce key ID A).map
          (fun p => decrypt_bytecode_into p.1 key exp true)
        ≠ .ok (.ok P (some A)) := by
  refine ⟨?_, ?_, ?_, ?_⟩
  · rw [encrypt_eq _ _ _ _ _ hk]
    simp only [Except.map]
    rw [container_ad_field, container_ct_field, fromLe_le32, fromLe_le32]
    rw [Nat.mod_mod_of_dvd _ dvd_rfl, Nat.mod_mod_of_dvd _ dvd_rfl]
  · intro h
    have hlt : A.length % 2 ^ 32 < 2 ^ 32 := Nat.mod_lt _ (by norm_num)
    omega
  · intro h
    have hlt : P.length % 2 ^ 32 < 2 ^ 32 := Nat.mod_lt _ (by norm_num)
    omega
  · intro exp hcontra
    rw [encrypt_eq _ _ _ _ _ hk] at hcontra
    simp only [Except.map, Except.ok.injEq] at hcontra
    obtain ⟨hptlen, hadlen⟩ := decrypt_ok_lengths _ _ _ _ _ _ hcontra
    have hA := hadlen A rfl
    rw [container_ad_field, fromLe_le32, Nat.mod_mod_of_dvd _ dvd_rfl] at hA
    rw [container_ct_field, fromLe_le32, Nat.mod_mod_of_dvd _ dvd_rfl] at hptlen
    have h1 : A.length % 2 ^ 32 < 2 ^ 32 := Nat.mod_lt _ (by norm_num)
    have h2 : P.length % 2 ^ 32 < 2 ^ 32 := Nat.mod_lt _ (by norm_num)
    rcases hbig with hb | hb
    · omega
    · omega

/-- Witness for C9 with a `2 ^ 32`-byte AD. -/
theorem C9_length_field_truncation_witness :
    ((encrypt_bytecode_into [] (List.replicate 24 0) (List.replicate 32 0) 0
        (List.replicate (2 ^ 32) 0)).map
        (fun p => (fromLe ((p.1.drop 12).take 4), fromLe ((p.1.drop 16).take 4)))
      = .ok ((List.replicate (2 ^ 32) (0 : Nat)).length % 2 ^ 32,
          ([] : List Nat).length % 2 ^ 32))
    ∧ (2 ^ 32 ≤ (List.replicate (2 ^ 32) (0 : Nat)).length →
        (List.replicate (2 ^ 32) (0 : Nat)).length % 2 ^ 32
          ≠ (List.replicate (2 ^ 32) (0 : Nat)).length)
    ∧ ((encrypt_bytecode_into [] (List.replicate 24 0) (List.replicate 32 0) 0
          (List.replicate (2 ^ 32) 0)).map
        (fun p => decrypt_bytecode_into p.1 (List.replicate 32 0) (some 0) true)
        ≠ .ok (.ok [] (some (List.replicate (2 ^ 32) 0)))) := by
  have h := C9_length_field_truncation [] (List.replicate 24 0)
    (List.replicate 32 0) (List.replicate (2 ^ 32) 0) 0 (by decide)
    (Or.inl (le_of_eq (List.length_replicate _ _).symm))
  exact ⟨h.1, h.2.1, h.2.2.2 (some 0)⟩

/-! ### Support for tamper detection -/

theorem xor_ne_self (x m : Nat) (hm : m ≠ 0) : x ^^^ m ≠ x := by
  intro h
  apply hm
  calc m = x ^^^ (x ^^^ m) := by rw [← Nat.xor_assoc, Nat.xor_self, Nat.zero_xor]
  _ = x ^^^ x := by rw [h]
  _ = 0 := Nat.xor_self x

theorem set_xor_ne (l : List Nat) (r m : Nat) (hr : r < l.length) (hm : m ≠ 0) :
    l.set r (l.getD r 0 ^^^ m) ≠ l := by
  intro h
  have hset : (l.set r (l.getD r 0 ^^^ m))[r]? = some (l.getD r 0 ^^^ m) := by
    rw [List.getElem?_set_self', List.getElem?_eq_getElem hr]
    rfl
  have h2 := congrArg (fun t => t[r]?) h
  simp only [] at h2
  rw [hset, List.getElem?_eq_getElem hr] at h2
  injection h2 with h3
  have h4 : l.getD r 0 = l[r] := by
    simp [List.getD_eq_getElem?_getD, List.getElem?_eq_getElem hr]
  rw [h4] at h3
  exact xor_ne_self _ _ hm h3

theorem container_set20 (i0 i1 a c : Nat) (nonce tag body : List Nat) (q v : Nat) :
    (MAGIC ++ ([LUAUCX_VERSION, AEAD_XCHACHA20, i0, i1] ++ (le32 a ++ (le32 c
        ++ (nonce ++ (tag ++ body)))))).set (20 + q) v
      = MAGIC ++ ([LUAUCX_VERSION, AEAD_XCHACHA20, i0, i1] ++ (le32 a ++ (le32 c
        ++ ((nonce ++ (tag ++ body)).set q v)))) := by
  rw [show (20 + q : Nat) = MAGIC.length + (12 + q) from by
    rw [show MAGIC.length = 8 from rfl]; omega]
  rw [set_append_skip]
  rw [show (12 + q : Nat)
      = ([LUAUCX_VERSION, AEAD_XCHACHA20, i0, i1] : List Nat).length + (8 + q) from by
    simp
    omega]
  rw [set_append_skip]
  rw [show (8 + q : Nat) = (le32 a).length + (4 + q) from by rw [length_le32]; omega]
  rw [set_append_skip]
  rw [show (4 + q : Nat) = (le32 c).length + q from by rw [length_le32]]
  rw [set_append_skip]

theorem container_getD20 (i0 i1 a c : Nat) (nonce tag body : List Nat) (q : Nat) :
    (MAGIC ++ ([LUAUCX_VERSION, AEAD_XCHACHA20, i0, i1] ++ (le32 a ++ (le32 c
        ++ (nonce ++ (tag ++ body)))))).getD (20 + q) 0
      = (nonce ++ (tag ++ body)).getD q 0 := by
  rw [show (20 + q : Nat) = MAGIC.length + (12 + q) from by
    rw [show MAGIC.length = 8 from rfl]; omega]
  rw [getD_append_skip]
  rw [show (12 + q : Nat)
      = ([LUAUCX_VERSION, AEAD_XCHACHA20, i0, i1] : List Nat).length + (8 + q) from by
    simp
    omega]
  rw [getD_append_skip]
  rw [show (8 + q : Nat) = (le32 a).length + (4 + q) from by rw [length_le32]; omega]
  rw [getD_append_skip]
  rw [show (4 + q : Nat) = (le32 c).length + q from by rw [length_le32]]
  rw [getD_append_skip]

/-- C3: tamper detection with all-or-nothing output — flipping any single
bit (position `p ≥ 20`, i.e. anywhere in the nonce, tag, ciphertext or AD
region) of a container produced by a valid encode makes decoding under the
original key fail with AuthenticationError, and in that case nothing is
returned for either sink (`dec_ret` is `none`: the code writes plaintext
only after a successful AEAD open). -/
theorem C3_tamper_detection (P nonce key A : List Nat) (ID : Nat)
    (cont : List Nat) (sz : Nat) (p k : Nat) (want : Bool)
    (hk : key.length = 32) (hn : nonce.length = 24)
    (hP : P.length < 2 ^ 32) (hA : A.length < 2 ^ 32)
    (henc : encrypt_bytecode_into P nonce key ID A = .ok (cont, sz))
    (hp20 : 20 ≤ p) (hplt : p < cont.length) (hk8 : k < 8) :
    decrypt_bytecode_into (cont.set p (cont.getD p 0 ^^^ 2 ^ k)) key none want
      = .err .authError
    ∧ dec_ret (decrypt_bytecode_into (cont.set p (cont.getD p 0 ^^^ 2 ^ k))
        key none want) = none := by
  suffices hmain : decrypt_bytecode_into (cont.set p (cont.getD p 0 ^^^ 2 ^ k))
      key none want = .err .authError by
    exact ⟨hmain, by rw [hmain]; rfl⟩
  rw [encrypt_eq _ _ _ _ _ hk] at henc
  simp only [Except.ok.injEq, Prod.mk.injEq] at henc
  obtain ⟨hcont, hsz⟩ := henc
  subst hcont
  rw [Nat.mod_eq_of_lt hA, Nat.mod_eq_of_lt hP] at hplt ⊢
  have hlenCT : (xcrypt key nonce P).length = P.length := length_xcrypt _ _ _
  have hlenTAG : (mac key nonce (xcrypt key nonce P) A).length = 16 :=
    length_mac _ _ _ _
  have hcontlen : (MAGIC ++ ([LUAUCX_VERSION, AEAD_XCHACHA20, ID % 2 ^ 16 % 256,
      ID % 2 ^ 16 / 256 % 256] ++ (le32 A.length ++ (le32 P.length
      ++ (nonce ++ (mac key nonce (xcrypt key nonce P) A
      ++ (xcrypt key nonce P ++ A))))))).length = 60 + (P.length + A.length) := by
    simp [MAGIC, le32, hn, hlenTAG, hlenCT]
    omega
  rw [hcontlen] at hplt
  obtain ⟨q, rfl⟩ : ∃ q, p = 20 + q := ⟨p - 20, by omega⟩
  have hq : q < 40 + (P.length + A.length) := by omega
  have hm : (2 : Nat) ^ k ≠ 0 :=
    Nat.pos_iff_ne_zero.mp (pow_pos (by norm_num : (0 : Nat) < 2) k)
  rw [container_set20, container_getD20]
  rcases Nat.lt_or_ge q 24 with hq1 | hq1
  · -- flip inside the nonce region
    rw [List.getD_append _ _ _ _ (by omega : q < nonce.length)]
    rw [List.set_append_left _ _ (by omega : q < nonce.length)]
    rw [decrypt_layout key (nonce.set q (nonce.getD q 0 ^^^ 2 ^ k))
        (mac key nonce (xcrypt key nonce P) A) (xcrypt key nonce P ++ A)
        (ID % 2 ^ 16 % 256) (ID % 2 ^ 16 / 256 % 256) A.length P.length none want
        hk (by rw [List.length_set, hn]) hlenTAG hA hP
        (by rw [List.length_append, hlenCT]) (Or.inl rfl)]
    rw [List.take_left' hlenCT, List.drop_left' hlenCT, List.take_length]
    rw [aeadOpen_append _ _ _ _ _ hlenTAG]
    have hne : mac key (nonce.set q (nonce.getD q 0 ^^^ 2 ^ k))
        (xcrypt key nonce P) A ≠ mac key nonce (xcrypt key nonce P) A := by
      refine mac_ne_of_set key nonce (xcrypt key nonce P) A key
        (nonce.set q (nonce.getD q 0 ^^^ 2 ^ k)) (xcrypt key nonce P) A
        (32 + q) (nonce.getD q 0 ^^^ 2 ^ k) ?_ ?_ ?_
      · rw [length_macStream _ _ _ _ hk hn]
        omega
      · rw [macStream_getD_nonce _ _ _ _ hk _ (by omega)]
        exact xor_ne_self _ _ hm
      · exact macStream_set_nonce _ _ _ _ hk _ _ (by omega)
    rw [if_neg hne]
  · rcases Nat.lt_or_ge q 40 with hq2 | hq2
    · -- flip inside the tag region
      rw [List.getD_append_right _ _ _ _ (by omega : nonce.length ≤ q)]
      rw [List.set_append_right _ _ (by omega : nonce.length ≤ q)]
      rw [hn]
      rw [List.getD_append _ _ _ _
        (by omega : q - 24 < (mac key nonce (xcrypt key nonce P) A).length)]
      rw [List.set_append_left _ _
        (by omega : q - 24 < (mac key nonce (xcrypt key nonce P) A).length)]
      rw [decrypt_layout key nonce
          ((mac key nonce (xcrypt key nonce P) A).set (q - 24)
            ((mac key nonce (xcrypt key nonce P) A).getD (q - 24) 0 ^^^ 2 ^ k))
          (xcrypt key nonce P ++ A)
          (ID % 2 ^ 16 % 256) (ID % 2 ^ 16 / 256 % 256) A.length P.length none want
          hk hn (by rw [List.length_set, hlenTAG]) hA hP
          (by rw [List.length_append, hlenCT]) (Or.inl rfl)]
      rw [List.take_left' hlenCT, List.drop_left' hlenCT, List.take_length]
      rw [aeadOpen_append _ _ _ _ _ (by rw [List.length_set, hlenTAG])]
      have hne := set_xor_ne (mac key nonce (xcrypt key nonce P) A) (q - 24)
        (2 ^ k) (by omega) hm
      rw [if_neg (Ne.symm hne)]
    · rcases Nat.lt_or_ge q (40 + P.length) with hq3 | hq3
      · -- flip inside the ciphertext region
        rw [List.getD_append_right _ _ _ _ (by omega : nonce.length ≤ q)]
        rw [List.set_append_right _ _ (by omega : nonce.length ≤ q)]
        rw [hn]
        rw [List.getD_append_right _ _ _ _
          (by omega : (mac key nonce (xcrypt key nonce P) A).length ≤ q - 24)]
        rw [List.set_append_right _ _
          (by omega : (mac key nonce (xcrypt key nonce P) A).length ≤ q - 24)]
        rw [hlenTAG]
        rw [List.getD_append _ _ _ _
          (by omega : q - 24 - 16 < (xcrypt key nonce P).length)]
        rw [List.set_append_left _ _
          (by omega : q - 24 - 16 < (xcrypt key nonce P).length)]
        rw [decrypt_layout key nonce (mac key nonce (xcrypt key nonce P) A)
            ((xcrypt key nonce P).set (q - 24 - 16)
              ((xcrypt key nonce P).getD (q - 24 - 16) 0 ^^^ 2 ^ k) ++ A)
            (ID % 2 ^ 16 % 256) (ID % 2 ^ 16 / 256 % 256) A.length P.length none want
            hk hn hlenTAG hA hP
            (by rw [List.length_append, List.length_set, hlenCT]) (Or.inl rfl)]
        rw [List.take_left' (by rw [List.length_set, hlenCT]),
          List.drop_left' (by rw [List.length_set, hlenCT]), List.take_length]
        rw [aeadOpen_append _ _ _ _ _ hlenTAG]
        have hne : mac key nonce ((xcrypt key nonce P).set (q - 24 - 16)
            ((xcrypt key nonce P).getD (q - 24 - 16) 0 ^^^ 2 ^ k)) A
            ≠ mac key nonce (xcrypt key nonce P) A := by
          refine mac_ne_of_set key nonce (xcrypt key nonce P) A key nonce
            ((xcrypt key nonce P).set (q - 24 - 16)
              ((xcrypt key nonce P).getD (q - 24 - 16) 0 ^^^ 2 ^ k)) A
            (64 + (A.length + ((pad16 A).length + (q - 24 - 16))))
            ((xcrypt key nonce P).getD (q - 24 - 16) 0 ^^^ 2 ^ k) ?_ ?_ ?_
          · rw [length_macStream _ _ _ _ hk hn]
            omega
          · rw [macStream_getD_ct _ _ _ _ hk hn _ (by omega)]
            exact xor_ne_self _ _ hm
          · exact macStream_set_ct _ _ _ _ hk hn _ _ (by omega)
        rw [if_neg hne]
      · -- flip inside the AD region
        have hr : q - 24 - 16 - P.length < A.length := by omega
        rw [List.getD_append_right _ _ _ _ (by omega : nonce.length ≤ q)]
        rw [List.set_append_right _ _ (by omega : nonce.length ≤ q)]
        rw [hn]
        rw [List.getD_append_right _ _ _ _
          (by omega : (mac key nonce (xcrypt key nonce P) A).length ≤ q - 24)]
        rw [List.set_append_right _ _
          (by omega : (mac key nonce (xcrypt key nonce P) A).length ≤ q - 24)]
        rw [hlenTAG]
        rw [List.getD_append_right _ _ _ _
          (by omega : (xcrypt key nonce P).length ≤ q - 24 - 16)]
        rw [List.set_append_right _ _
          (by omega : (xcrypt key nonce P).length ≤ q - 24 - 16)]
        rw [hlenCT]
        rw [decrypt_layout key nonce (mac key nonce (xcrypt key nonce P) A)
            (xcrypt key nonce P ++ A.set (q - 24 - 16 - P.length)
              (A.getD (q - 24 - 16 - P.length) 0 ^^^ 2 ^ k))
            (ID % 2 ^ 16 % 256) (ID % 2 ^ 16 / 256 % 256) A.length P.length none want
            hk hn hlenTAG hA hP
            (by rw [List.length_append, List.length_set, hlenCT]) (Or.inl rfl)]
        rw [List.take_left' hlenCT, List.drop_left' hlenCT]
        rw [show A.length = (A.set (q - 24 - 16 - P.length)
            (A.getD (q - 24 - 16 - P.length) 0 ^^^ 2 ^ k)).length from
          (List.length_set _ _ _).symm, List.take_length]
        rw [aeadOpen_append _ _ _ _ _ hlenTAG]
        have hne : mac key nonce (xcrypt key nonce P)
            (A.set (q - 24 - 16 - P.length)
              (A.getD (q - 24 - 16 - P.length) 0 ^^^ 2 ^ k))
            ≠ mac key nonce (xcrypt key nonce P) A := by
          refine mac_ne_of_set key nonce (xcrypt key nonce P) A key nonce
            (xcrypt key nonce P)
            (A.set (q - 24 - 16 - P.length)
              (A.getD (q - 24 - 16 - P.length) 0 ^^^ 2 ^ k))
            (64 + (q - 24 - 16 - P.length))
            (A.getD (q - 24 - 16 - P.length) 0 ^^^ 2 ^ k) ?_ ?_ ?_
          · rw [length_macStream _ _ _ _ hk hn]
            omega
          · rw [macStream_getD_ad _ _ _ _ hk hn _ hr]
            exact xor_ne_self _ _ hm
          · exact macStream_set_ad _ _ _ _ hk hn _ _ hr
        rw [if_neg hne]

/-- Witness for C3: flipping the lowest bit of byte 44 (the first tag byte)
of the concrete pinned container makes decoding fail with
AuthenticationError and produce no output. -/
theorem C3_tamper_detection_witness :
    decrypt_bytecode_into
        (([76, 85, 65, 85, 66, 89, 84, 88, 1, 1, 7, 0, 2, 0, 0, 0, 5, 0, 0, 0,
          0, 0, 0, 0, 0, 0, 0, 0, 0, 0, 0, 0, 0, 0, 0, 0, 0, 0, 0, 0, 0, 0, 0, 0,
          28, 85, 110, 111, 107, 0, 0, 0, 5, 0, 0, 0, 0, 0, 0, 0,
          104, 100, 110, 111, 107, 118, 49]).set 44
          (([76, 85, 65, 85, 66, 89, 84, 88, 1, 1, 7, 0, 2, 0, 0, 0, 5, 0, 0, 0,
          0, 0, 0, 0, 0, 0, 0, 0, 0, 0, 0, 0, 0, 0, 0, 0, 0, 0, 0, 0, 0, 0, 0, 0,
          28, 85, 110, 111, 107, 0, 0, 0, 5, 0, 0, 0, 0, 0, 0, 0,
          104, 100, 110, 111, 107, 118, 49]).getD 44 0 ^^^ 2 ^ 0))
        (List.replicate 32 0) none true
      = .err .authError
    ∧ dec_ret (decrypt_bytecode_into
        (([76, 85, 65, 85, 66, 89, 84, 88, 1, 1, 7, 0, 2, 0, 0, 0, 5, 0, 0, 0,
          0, 0, 0, 0, 0, 0, 0, 0, 0, 0, 0, 0, 0, 0, 0, 0, 0, 0, 0, 0, 0, 0, 0, 0,
          28, 85, 110, 111, 107, 0, 0, 0, 5, 0, 0, 0, 0, 0, 0, 0,
          104, 100, 110, 111, 107, 118, 49]).set 44
          (([76, 85, 65, 85, 66, 89, 84, 88, 1, 1, 7, 0, 2, 0, 0, 0, 5, 0, 0, 0,
          0, 0, 0, 0, 0, 0, 0, 0, 0, 0, 0, 0, 0, 0, 0, 0, 0, 0, 0, 0, 0, 0, 0, 0,
          28, 85, 110, 111, 107, 0, 0, 0, 5, 0, 0, 0, 0, 0, 0, 0,
          104, 100, 110, 111, 107, 118, 49]).getD 44 0 ^^^ 2 ^ 0))
        (List.replicate 32 0) none true) = none :=
  C3_tamper_detection [104, 101, 108, 108, 111] (List.replicate 24 0)
    (List.replicate 32 0) [118, 49] 7
    ([76, 85, 65, 85, 66, 89, 84, 88, 1, 1, 7, 0, 2, 0, 0, 0, 5, 0, 0, 0,
          0, 0, 0, 0, 0, 0, 0, 0, 0, 0, 0, 0, 0, 0, 0, 0, 0, 0, 0, 0, 0, 0, 0, 0,
          28, 85, 110, 111, 107, 0, 0, 0, 5, 0, 0, 0, 0, 0, 0, 0,
          104, 100, 110, 111, 107, 118, 49]) 67 44 0 true
    (by decide) (by decide) (by decide) (by decide) (by rfl)
    (by decide) (by decide) (by decide)

end Luaucx
